import Mathlib

/-!
Verification of the in-memory configuration store, credential cache and
resolver, JSON duplicate-key validator, and load/publish lifecycle of
`cmd/config-current.go`.

The Go code is shallowly embedded as pure Lean functions.  Go maps are
modelled as association lists (`List (String × Credentials)`): a read of a
missing key yields the zero value, as in Go; iteration order of a Go map is
unspecified, so the list order stands in for one fixed iteration order.
The process-global credential cache is threaded explicitly through the
operations that read or write it.  Locking (`sync.RWMutex`) has no
observable effect on the sequential semantics embedded here and is not
modelled.  External collaborators that are not part of the source file
(the `auth` credential entity, the `quick` persistence layer, the gjson
iteration contract, notification-target validation, parity validation) are
modelled from the specification, each marked `Modelled from the spec:` at
its definition.
-/

/-- The access/secret key pair of the external `auth` collaborator
(`auth.Credentials`).  Only the two key fields are relevant to this core. -/
structure Credentials where
  AccessKey : String
  SecretKey : String
deriving DecidableEq

/-- The Go zero value `auth.Credentials{}`. -/
def Credentials.zero : Credentials := { AccessKey := "", SecretKey := "" }

/-- Modelled from the spec: the validity predicate of the external `auth`
collaborator (not under `src/`).  The spec states that `IsValid()` holds iff
both fields are non-empty and meet format constraints defined by the
collaborator; the specified non-emptiness requirement is what we model.
The property used by the embedded code is that the zero credential is
invalid, which holds under any refinement of this predicate. -/
def Credentials.IsValid (c : Credentials) : Bool :=
  c.AccessKey != "" && c.SecretKey != ""

/-- Association-list stand-in for Go's `map[string]auth.Credentials`. -/
abbrev CredMap := List (String × Credentials)

/-- Go map read `m[k]`: the first entry for `k`, or the zero value. -/
def mapGet : CredMap → String → Credentials
  | [], _ => Credentials.zero
  | (k', v) :: rest, k => if k' = k then v else mapGet rest k

/-- Go map write `m[k] = v`: replace the entry for `k`, or append it. -/
def mapSet : CredMap → String → Credentials → CredMap
  | [], k, v => [(k, v)]
  | (k', v') :: rest, k, v =>
      if k' = k then (k, v) :: rest else (k', v') :: mapSet rest k v

/-- Go map `delete(m, k)`. -/
def mapDelete (m : CredMap) (k : String) : CredMap :=
  m.filter (fun kv => kv.1 != k)

/-- A storage-class spec: scheme tag and parity count. -/
structure storageClass where
  Scheme : String
  Parity : Nat
deriving DecidableEq

/-- The two storage-class specs held by the config. -/
structure storageClassConfig where
  Standard : storageClass
  RRS : storageClass
deriving DecidableEq

/-- Modelled from the spec: the notification block is opaque to this core
(only a `Validate` capability is consumed, and `Validate`'s body is not
under `src/`); it is modelled as an opaque token. -/
structure notifier where
  token : Nat
deriving DecidableEq

/-- Config version (`serverConfigVersion = "23"`). -/
def serverConfigVersion : String := "23"

/-- The `serverConfig` aggregate (`serverConfigV23`), with the fields the
source file reads or writes. -/
structure serverConfig where
  Version : String
  Credential : Credentials
  Region : String
  Browser : Bool
  Domain : String
  StorageClass : storageClassConfig
  Notify : notifier
  Bucket : CredMap
deriving DecidableEq

/-- `GetVersion`. -/
def serverConfig.GetVersion (s : serverConfig) : String := s.Version

/-- `SetRegion`. -/
def serverConfig.SetRegion (s : serverConfig) (region : String) : serverConfig :=
  { s with Region := region }

/-- `GetRegion`. -/
def serverConfig.GetRegion (s : serverConfig) : String := s.Region

/-- `SetCredential`: sets new root credentials and returns the previous
ones together with the updated store. -/
def serverConfig.SetCredential (s : serverConfig) (creds : Credentials) :
    Credentials × serverConfig :=
  (s.Credential, { s with Credential := creds })

/-- `GetCredential`. -/
def serverConfig.GetCredential (s : serverConfig) : Credentials := s.Credential

/-- `SetCredentialForBucket`: the result is the reported previous
credentials, the updated store, and the updated global credential cache. -/
def serverConfig.SetCredentialForBucket (s : serverConfig) (cache : CredMap)
    (bucket : String) (creds : Credentials) : Credentials × serverConfig × CredMap :=
  if bucket = "" then
    (s.Credential, { s with Credential := creds }, cache)
  else
    let prevCred := mapGet s.Bucket bucket
    if prevCred.IsValid then
      (prevCred,
       { s with Bucket := mapSet s.Bucket bucket creds },
       mapSet (mapDelete cache prevCred.AccessKey) creds.AccessKey creds)
    else
      (s.Credential,
       { s with Bucket := mapSet s.Bucket bucket creds },
       mapSet cache creds.AccessKey creds)

/-- `GetCredentialForBucket`. -/
def serverConfig.GetCredentialForBucket (s : serverConfig) (bucket : String) :
    Credentials :=
  let cred := mapGet s.Bucket bucket
  if !cred.IsValid then s.Credential else cred

/-- `GetBucketForKey`: the bucket name matching an access key, or `""`. -/
def serverConfig.GetBucketForKey (s : serverConfig) (key : String) : String :=
  if key = s.Credential.AccessKey then
    ""
  else
    match s.Bucket.find? (fun kv => kv.2.AccessKey == key) with
    | some kv => kv.1
    | none => ""

/-- `GetCredentialForKey` (the resolver): the result is the resolved
credentials and the possibly lazily-populated global credential cache. -/
def serverConfig.GetCredentialForKey (s : serverConfig) (cache : CredMap)
    (key : String) : Credentials × CredMap :=
  if s.Credential.AccessKey = key then
    (s.Credential, cache)
  else
    let cred := mapGet cache key
    if cred.IsValid && cred.AccessKey == key then
      (cred, cache)
    else
      match s.Bucket.find? (fun kv => kv.2.AccessKey == key) with
      | some kv => (kv.2, mapSet cache kv.2.AccessKey kv.2)
      | none => (Credentials.zero, cache)

/-- `SetBrowser`. -/
def serverConfig.SetBrowser (s : serverConfig) (b : Bool) : serverConfig :=
  { s with Browser := b }

/-- `SetStorageClass`. -/
def serverConfig.SetStorageClass (s : serverConfig)
    (standardClass rrsClass : storageClass) : serverConfig :=
  { s with StorageClass := { Standard := standardClass, RRS := rrsClass } }

/-- `GetBrowser`. -/
def serverConfig.GetBrowser (s : serverConfig) : Bool := s.Browser

/-- `GetStorageClass`: re-validates both specs (parity validators are
external; modelled from the spec as opaque `Option String`-valued
capabilities) and flips the storage-class-configured flag when a scheme is
non-empty.  `fatalIf` terminates the process on a validation error; that
outcome is modelled as the `Except.error` case.  The `ok` payload is the
two returned specs and the updated flag. -/
def serverConfig.GetStorageClass (s : serverConfig)
    (validRRS validSS : Nat → Nat → Option String) (flag : Bool) :
    Except String (storageClass × storageClass × Bool) :=
  let ssc := s.StorageClass.Standard
  let rrsc := s.StorageClass.RRS
  let step1 : Except String Bool :=
    if rrsc.Scheme != "" then
      match validRRS rrsc.Parity ssc.Parity with
      | some e => Except.error e
      | none => Except.ok true
    else Except.ok flag
  match step1 with
  | Except.error e => Except.error e
  | Except.ok flag1 =>
      if ssc.Scheme != "" then
        match validSS ssc.Parity rrsc.Parity with
        | some e => Except.error e
        | none => Except.ok (ssc, rrsc, true)
      else Except.ok (ssc, rrsc, flag1)

/-- A parsed JSON document, as the tagged variant the spec prescribes for
the duplicate-key walk (object / array / scalar). -/
inductive Json where
  | null
  | boolean (b : Bool)
  | number (n : Int)
  | str (s : String)
  | arr (elems : List Json)
  | obj (fields : List (String × Json))

/-- A gjson iteration key as consumed by `doCheckDupJSONKeys`: the string
key of an object member, the index of an array element, or the null key
passed for scalar values. -/
inductive GKey where
  | nullKey
  | strKey (s : String)
  | numKey (n : Nat)

/-- The `String()` rendering of an iteration key, used in error messages. -/
def GKey.toStr : GKey → String
  | .nullKey => ""
  | .strKey s => s
  | .numKey n => toString n

/-- `keysOcc[k]++`: increment the occurrence count of `k` (first entry, or
a fresh entry at count 1). -/
def bump (occ : List (String × Nat)) (k : String) : List (String × Nat) :=
  match occ with
  | [] => [(k, 1)]
  | (k', c) :: rest => if k' = k then (k', c + 1) :: rest else (k', c) :: bump rest k

/-- The duplicated key reported by the `for k, v := range keysOcc` loop:
the first counted key with more than one occurrence.  (Go map iteration
order is unspecified; the insertion order stands in for it.  Which key is
reported is the only thing that depends on the order, not whether one is.) -/
def firstDup (occ : List (String × Nat)) : Option String :=
  (occ.find? (fun kc => kc.2 > 1)).map (fun kc => kc.1)

/-- The tail of `doCheckDupJSONKeys` after the `ForEach` loop: a child
error is chained behind the scope's key, otherwise a duplicated key in the
current scope is reported. -/
def finishScope (key : GKey) : List (String × Nat) × Option String → Option String
  | (_, some e) => some (key.toStr ++ " => " ++ e)
  | (occ, none) =>
      match firstDup occ with
      | some k => some (key.toStr ++ " => `" ++ k ++ "` entry is duplicated")
      | none => none

mutual

/-- `doCheckDupJSONKeys`: recursively detects duplicate JSON keys.  The
iteration over the current scope is gjson's `ForEach`, an external
dependency; modelled from the spec: an object scope enumerates its
key/value members (string keys, counted in `keysOcc` and recursed into); a
non-object scope contributes no keys of its own and only propagates errors
from its child values (array elements are recursed into under their index
key, scalars have no children); iteration stops at the first child error. -/
def doCheckDupJSONKeys (key : GKey) (value : Json) : Option String :=
  match value with
  | .obj fields => finishScope key (scanFields fields [])
  | .arr elems => finishScope key (scanElems 0 elems [])
  | _ => none

/-- The `ForEach` body over an object scope: count each key, recurse into
its value, stop at the first error. -/
def scanFields (fields : List (String × Json)) (occ : List (String × Nat)) :
    List (String × Nat) × Option String :=
  match fields with
  | [] => (occ, none)
  | (k, v) :: rest =>
      let occ2 := bump occ k
      match doCheckDupJSONKeys (GKey.strKey k) v with
      | some e => (occ2, some e)
      | none => scanFields rest occ2

/-- The `ForEach` body over an array scope: no keys are contributed,
element values are recursed into, iteration stops at the first error. -/
def scanElems (i : Nat) (elems : List Json) (occ : List (String × Nat)) :
    List (String × Nat) × Option String :=
  match elems with
  | [] => (occ, none)
  | v :: rest =>
      match doCheckDupJSONKeys (GKey.numKey i) v with
      | some e => (occ, some e)
      | none => scanElems (i + 1) rest occ

end

/-- The logical name of the config file, used as the synthetic root key. -/
def minioConfigFile : String := "config.json"

/-- `checkDupJSONKeys`: run the walk from a synthetic root key named after
the config file. -/
def checkDupJSONKeys (doc : Json) : Option String :=
  doCheckDupJSONKeys (GKey.strKey minioConfigFile) doc

mutual

/-- Spec-side predicate, from the claim's words: no single object scope of
the document declares two same-named immediate keys. -/
def Json.dupFree : Json → Bool
  | .obj fields => decide ((fields.map Prod.fst).Nodup) && dupFreeFields fields
  | .arr elems => dupFreeElems elems
  | _ => true

/-- `Json.dupFree` over the values of an object's field list. -/
def dupFreeFields : List (String × Json) → Bool
  | [] => true
  | (_, v) :: rest => v.dupFree && dupFreeFields rest

/-- `Json.dupFree` over an array's element list. -/
def dupFreeElems : List Json → Bool
  | [] => true
  | v :: rest => v.dupFree && dupFreeElems rest

end

mutual

/-- The document is, or contains at any depth, an object scope with a
duplicated immediate key. -/
def Json.hasDupObj : Json → Bool
  | .obj fields => !decide ((fields.map Prod.fst).Nodup) || hasDupObjFields fields
  | .arr elems => hasDupObjElems elems
  | _ => false

/-- `Json.hasDupObj` over the values of an object's field list. -/
def hasDupObjFields : List (String × Json) → Bool
  | [] => false
  | (_, v) :: rest => v.hasDupObj || hasDupObjFields rest

/-- `Json.hasDupObj` over an array's element list. -/
def hasDupObjElems : List Json → Bool
  | [] => false
  | v :: rest => v.hasDupObj || hasDupObjElems rest

end

mutual

/-- The document contains, at any depth, an array one of whose elements
is or contains an object scope with a duplicated immediate key. -/
def Json.arrNestedDup : Json → Bool
  | .obj fields => arrNestedDupFields fields
  | .arr elems => hasDupObjElems elems || arrNestedDupElems elems
  | _ => false

/-- `Json.arrNestedDup` over the values of an object's field list. -/
def arrNestedDupFields : List (String × Json) → Bool
  | [] => false
  | (_, v) :: rest => v.arrNestedDup || arrNestedDupFields rest

/-- `Json.arrNestedDup` over an array's element list. -/
def arrNestedDupElems : List Json → Bool
  | [] => false
  | v :: rest => v.arrNestedDup || arrNestedDupElems rest

end

/-- Modelled from the spec: the default region constant defined outside
this source file.  Its value is irrelevant to every claim. -/
def globalMinioDefaultRegion : String := ""

/-- `newServerConfig`: the freshly constructed default config.
`auth.MustGetNewCredentials()` is external randomness, passed in as
`freshCred`; the notification block with its default `"1"` entries is
opaque here. -/
def newServerConfig (freshCred : Credentials) : serverConfig :=
  { Version := serverConfigVersion
    Credential := freshCred
    Region := globalMinioDefaultRegion
    Browser := true
    Domain := ""
    StorageClass := { Standard := { Scheme := "", Parity := 0 }, RRS := { Scheme := "", Parity := 0 } }
    Notify := { token := 1 }
    Bucket := [] }

/-- The process-wide mutable state touched by the lifecycle functions: the
published store pointer, the credential cache, the mirrored convenience
globals, and the environment-override flags and values. -/
structure Globals where
  globalServerConfig : Option serverConfig
  globalServerCredCache : CredMap
  globalActiveCred : Credentials
  globalIsBrowserEnabled : Bool
  globalServerRegion : String
  globalDomainName : String
  globalStandardStorageClass : storageClass
  globalRRStorageClass : storageClass
  globalIsEnvCreds : Bool
  globalIsEnvBrowser : Bool
  globalIsEnvRegion : Bool
  globalIsEnvDomainName : Bool
  globalIsStorageClass : Bool
deriving DecidableEq

/-- `getValidConfig`: obtain and validate a configuration.  The persistence
collaborator is external; modelled from the spec: `quick.Load`'s outcome is
passed in as `loadResult` (the deserialized config or a persistence/parse
error), `ioutil.ReadFile` plus gjson parsing as `readResult`, and the
opaque `Notify.Validate()` outcome as `notifyErr`.  The validation order
and short-circuiting follow the source. -/
def getValidConfig (loadResult : Except String serverConfig)
    (readResult : Except String Json) (notifyErr : Option String)
    (globalIsEnvCreds : Bool) : Except String serverConfig :=
  match loadResult with
  | Except.error e => Except.error e
  | Except.ok srvCfg =>
      if srvCfg.Version ≠ serverConfigVersion then
        -- the source message quotes the versions; the quote marks are elided
        Except.error ("configuration version mismatch. Expected: " ++
          serverConfigVersion ++ ", Got: " ++ srvCfg.Version)
      else
        match readResult with
        | Except.error e => Except.error e
        | Except.ok jsonDoc =>
            match checkDupJSONKeys jsonDoc with
            | some e => Except.error e
            | none =>
                if !globalIsEnvCreds && !srvCfg.Credential.IsValid then
                  Except.error ("invalid credential in config file " ++ minioConfigFile)
                else
                  match notifyErr with
                  | some e => Except.error e
                  | none => Except.ok srvCfg

/-- The environment-override merge applied to a config before publishing;
this block appears verbatim in both `newConfig` and `loadConfig` in the
source. -/
def applyEnvOverrides (g : Globals) (srvCfg : serverConfig) : serverConfig :=
  let s1 := if g.globalIsEnvCreds then (srvCfg.SetCredential g.globalActiveCred).2 else srvCfg
  let s2 := if g.globalIsEnvBrowser then s1.SetBrowser g.globalIsBrowserEnabled else s1
  let s3 := if g.globalIsEnvRegion then s2.SetRegion g.globalServerRegion else s2
  let s4 := if g.globalIsEnvDomainName then { s3 with Domain := g.globalDomainName } else s3
  if g.globalIsStorageClass then
    s4.SetStorageClass g.globalStandardStorageClass g.globalRRStorageClass
  else s4

/-- The mirror of the now-effective credential, browser flag, region and
domain into the convenience globals (`loadConfig` lines 448-459); the
environment flags of `g1` are those of the pre-publication globals. -/
def mirrorGlobals (g1 : Globals) (s5 : serverConfig) : Globals :=
  let g2 := if !g1.globalIsEnvCreds then { g1 with globalActiveCred := s5.GetCredential } else g1
  let g3 := if !g1.globalIsEnvBrowser then { g2 with globalIsBrowserEnabled := s5.GetBrowser } else g2
  let g4 := if !g1.globalIsEnvRegion then { g3 with globalServerRegion := s5.GetRegion } else g3
  if !g1.globalIsEnvDomainName then { g4 with globalDomainName := s5.Domain } else g4

/-- `loadConfig`: validate, apply environment overrides, publish the new
store with a fresh empty cache, and mirror the effective values into the
convenience globals.  The first component is the returned error (`none` on
success).  A `fatalIf` failure inside the mirrored `GetStorageClass` call
terminates the process; it is modelled as an error outcome. -/
def loadConfig (g : Globals) (loadResult : Except String serverConfig)
    (readResult : Except String Json) (notifyErr : Option String)
    (validRRS validSS : Nat → Nat → Option String) : Option String × Globals :=
  match getValidConfig loadResult readResult notifyErr g.globalIsEnvCreds with
  | Except.error e => (some e, g)
  | Except.ok srvCfg0 =>
      let s5 := applyEnvOverrides g srvCfg0
      let g1 := { g with globalServerCredCache := [], globalServerConfig := some s5 }
      let g5 := mirrorGlobals g1 s5
      if !g.globalIsStorageClass then
        match s5.GetStorageClass validRRS validSS g5.globalIsStorageClass with
        | Except.error e => (some ("fatal: " ++ e), g5)
        | Except.ok (ssc, rrsc, flag) =>
            (none, { g5 with globalStandardStorageClass := ssc,
                             globalRRStorageClass := rrsc,
                             globalIsStorageClass := flag })
      else (none, g5)

/-- `newConfig`: construct defaults, apply environment overrides, publish
with a fresh empty cache, then persist (the external `Save` outcome is
passed in as `saveErr` and returned; in the source the publication has
already happened when `Save` runs). -/
def newConfig (g : Globals) (freshCred : Credentials) (saveErr : Option String) :
    Option String × Globals :=
  let s5 := applyEnvOverrides g (newServerConfig freshCred)
  (saveErr, { g with globalServerConfig := some s5, globalServerCredCache := [] })

/-- The claim's cache invariant, as stated: every cache entry holds a
credential that is either the current root credential or a value currently
present in `bucketCredentials`. -/
def CacheConsistent (s : serverConfig) (cache : CredMap) : Prop :=
  ∀ kv ∈ cache, kv.2 = s.Credential ∨ ∃ e ∈ s.Bucket, e.2 = kv.2

/-- The invariant the code actually maintains: every cache entry is keyed
by its credential's own access key, and every entry holding a valid
credential is a value currently present in `bucketCredentials`.  Entries
holding invalid credentials can persist as stale (see the counterexample
to the claimed invariant) but are rejected by the resolver's validity
double-check. -/
def CacheWellFormed (s : serverConfig) (cache : CredMap) : Prop :=
  ∀ kv ∈ cache, kv.1 = kv.2.AccessKey ∧
    (kv.2.IsValid = true → ∃ e ∈ s.Bucket, e.2 = kv.2)

/-- Test fixture: a configuration with the given root credential and
bucket-credential map; the remaining fields are defaults. -/
def mkTestConfig (root : Credentials) (bucket : CredMap) : serverConfig :=
  { Version := serverConfigVersion
    Credential := root
    Region := ""
    Browser := true
    Domain := ""
    StorageClass := { Standard := { Scheme := "", Parity := 0 }, RRS := { Scheme := "", Parity := 0 } }
    Notify := { token := 1 }
    Bucket := bucket }

/-- Test fixture: a valid root credential. -/
def credRoot : Credentials := { AccessKey := "root", SecretKey := "rootsecret" }

/-- Test fixture: a valid bucket credential. -/
def credK1 : Credentials := { AccessKey := "k1", SecretKey := "s1" }

/-- Test fixture: a second valid bucket credential. -/
def credY : Credentials := { AccessKey := "y", SecretKey := "ysecret" }

/-- Test fixture: an invalid credential with a non-empty access key. -/
def credXInvalid : Credentials := { AccessKey := "x", SecretKey := "" }

/-- Test fixture: a valid credential sharing the root's access key. -/
def credRootClone : Credentials := { AccessKey := "root", SecretKey := "other" }

/-- Test fixture: globals with no environment overrides in effect. -/
def gTest : Globals :=
  { globalServerConfig := none
    globalServerCredCache := []
    globalActiveCred := Credentials.zero
    globalIsBrowserEnabled := true
    globalServerRegion := ""
    globalDomainName := ""
    globalStandardStorageClass := { Scheme := "", Parity := 0 }
    globalRRStorageClass := { Scheme := "", Parity := 0 }
    globalIsEnvCreds := false
    globalIsEnvBrowser := false
    globalIsEnvRegion := false
    globalIsEnvDomainName := false
    globalIsStorageClass := false }

/-- Test fixture: parity validators that always accept. -/
def noParityErr : Nat → Nat → Option String := fun _ _ => none

/-- Test fixture: the document mapping key a to an object declaring x twice. -/
def jsonDupNested : Json :=
  Json.obj [("a", Json.obj [("x", Json.number 1), ("x", Json.number 2)])]

/-- Test fixture: the document with the same key name x under the two
distinct scopes a and b. -/
def jsonSameKeyTwoScopes : Json :=
  Json.obj [("a", Json.obj [("x", Json.number 1)]), ("b", Json.obj [("x", Json.number 1)])]

/-- Test fixture: a document with an object declaring x twice nested
inside an array. -/
def jsonArrayDup : Json :=
  Json.obj [("a", Json.arr [Json.obj [("x", Json.number 1), ("x", Json.number 2)]])]

/-- Test fixture: a duplicate-free document exercising objects, arrays and
scalars. -/
def jsonCleanDoc : Json :=
  Json.obj [("a", Json.arr [Json.obj [("x", Json.number 1)], Json.str "v"]),
            ("b", Json.boolean true)]

theorem mapGet_mapSet_self (m : CredMap) (k : String) (v : Credentials) :
    mapGet (mapSet m k v) k = v := by
  induction m with
  | nil => simp [mapSet, mapGet]
  | cons kv rest ih =>
      obtain ⟨k', v'⟩ := kv
      by_cases h : k' = k
      · simp [mapSet, h, mapGet]
      · simp [mapSet, h, mapGet, ih]

theorem mapGet_mapSet_ne (m : CredMap) (k k' : String) (v : Credentials)
    (h : k' ≠ k) : mapGet (mapSet m k v) k' = mapGet m k' := by
  have hkk : k ≠ k' := Ne.symm h
  induction m with
  | nil => simp [mapSet, mapGet, hkk]
  | cons kv rest ih =>
      obtain ⟨a, b⟩ := kv
      by_cases ha : a = k
      · subst ha
        simp [mapSet, mapGet, hkk]
      · simp [mapSet, ha, mapGet, ih]

theorem mem_mapSet (m : CredMap) (k : String) (v : Credentials)
    (kv : String × Credentials) (hm : kv ∈ mapSet m k v) : kv = (k, v) ∨ kv ∈ m := by
  induction m with
  | nil => simpa [mapSet] using hm
  | cons hd rest ih =>
      obtain ⟨a, b⟩ := hd
      by_cases ha : a = k
      · rw [mapSet, if_pos ha] at hm
        rcases List.mem_cons.1 hm with h1 | h1
        · exact Or.inl h1
        · exact Or.inr (List.mem_cons_of_mem _ h1)
      · rw [mapSet, if_neg ha] at hm
        rcases List.mem_cons.1 hm with h1 | h1
        · exact Or.inr (h1 ▸ List.mem_cons_self _ _)
        · rcases ih h1 with h2 | h2
          · exact Or.inl h2
          · exact Or.inr (List.mem_cons_of_mem _ h2)

theorem mapSet_self_mem (m : CredMap) (k : String) (v : Credentials) :
    (k, v) ∈ mapSet m k v := by
  induction m with
  | nil => simp [mapSet]
  | cons hd rest ih =>
      obtain ⟨a, b⟩ := hd
      by_cases ha : a = k
      · simp [mapSet, ha]
      · simp only [mapSet, if_neg ha, List.mem_cons]
        exact Or.inr ih

theorem mem_mapSet_of_ne (m : CredMap) (k : String) (v : Credentials)
    (kv : String × Credentials) (h : kv ∈ m) (hne : kv.1 ≠ k) :
    kv ∈ mapSet m k v := by
  induction m with
  | nil => cases h
  | cons hd rest ih =>
      obtain ⟨a, b⟩ := hd
      rcases List.mem_cons.1 h with rfl | hrest
      · have ha : a ≠ k := hne
        simp [mapSet, if_neg ha]
      · by_cases ha : a = k
        · simp only [mapSet, if_pos ha, List.mem_cons]
          exact Or.inr hrest
        · simp only [mapSet, if_neg ha, List.mem_cons]
          exact Or.inr (ih hrest)

theorem mem_mapDelete (m : CredMap) (k : String) (kv : String × Credentials) :
    kv ∈ mapDelete m k ↔ kv ∈ m ∧ kv.1 ≠ k := by
  simp [mapDelete, List.mem_filter]

theorem mapGet_mapDelete_self (m : CredMap) (k : String) :
    mapGet (mapDelete m k) k = Credentials.zero := by
  induction m with
  | nil => rfl
  | cons hd rest ih =>
      obtain ⟨a, b⟩ := hd
      by_cases ha : a = k
      · simpa [mapDelete, List.filter_cons, ha] using ih
      · simpa [mapDelete, List.filter_cons, ha, mapGet] using ih

theorem mapGet_eq_of_mem_nodup (m : CredMap) (k : String) (v : Credentials)
    (hnd : (m.map Prod.fst).Nodup) (h : (k, v) ∈ m) : mapGet m k = v := by
  induction m with
  | nil => cases h
  | cons hd rest ih =>
      obtain ⟨a, b⟩ := hd
      simp only [List.map_cons, List.nodup_cons] at hnd
      rcases List.mem_cons.1 h with heq | hrest
      · obtain ⟨rfl, rfl⟩ := Prod.mk.injEq .. ▸ heq
        simp [mapGet]
      · have hak : a ≠ k := by
          rintro rfl
          exact hnd.1 (List.mem_map.2 ⟨(a, v), hrest, rfl⟩)
        simp [mapGet, hak, ih hnd.2 hrest]

/-- First-entry read of an occurrence list, mirroring `mapGet`. -/
def countOf : List (String × Nat) → String → Nat
  | [], _ => 0
  | (k', c) :: rest, k => if k' = k then c else countOf rest k

theorem countOf_bump_self (occ : List (String × Nat)) (k : String) :
    countOf (bump occ k) k = countOf occ k + 1 := by
  induction occ with
  | nil => simp [bump, countOf]
  | cons kc rest ih =>
      obtain ⟨k', c⟩ := kc
      by_cases h : k' = k
      · simp [bump, h, countOf]
      · simp [bump, h, countOf, ih]

theorem countOf_bump_ne (occ : List (String × Nat)) (k a : String) (h : k ≠ a) :
    countOf (bump occ k) a = countOf occ a := by
  induction occ with
  | nil => simp [bump, countOf, h]
  | cons kc rest ih =>
      obtain ⟨k', c⟩ := kc
      by_cases hk : k' = k
      · subst hk
        simp [bump, countOf, h]
      · simp [bump, hk, countOf, ih]

theorem countOf_foldl_bump (names : List String) (occ : List (String × Nat)) (a : String) :
    countOf (List.foldl bump occ names) a = countOf occ a + names.count a := by
  induction names generalizing occ with
  | nil => simp
  | cons n ns ih =>
      rw [List.foldl_cons, ih, List.count_cons]
      by_cases h : n = a
      · subst h
        simp [countOf_bump_self]
        omega
      · have : (n == a) = false := by simpa using h
        simp [countOf_bump_ne occ n a h, this]

theorem mem_keys_bump_iff (occ : List (String × Nat)) (k a : String) :
    a ∈ (bump occ k).map Prod.fst ↔ a ∈ occ.map Prod.fst ∨ a = k := by
  induction occ with
  | nil => simp [bump]
  | cons kc rest ih =>
      obtain ⟨k', c⟩ := kc
      by_cases h : k' = k
      · subst h
        simp [bump]
        tauto
      · simp [bump, h, ih]
        tauto

theorem keys_nodup_bump (occ : List (String × Nat)) (k : String)
    (h : (occ.map Prod.fst).Nodup) : ((bump occ k).map Prod.fst).Nodup := by
  induction occ with
  | nil => simp [bump]
  | cons kc rest ih =>
      obtain ⟨k', c⟩ := kc
      simp only [List.map_cons, List.nodup_cons] at h
      by_cases hk : k' = k
      · subst hk
        simpa [bump] using h
      · simp only [bump, if_neg hk, List.map_cons, List.nodup_cons]
        refine ⟨?_, ih h.2⟩
        rw [mem_keys_bump_iff]
        rintro (hm | rfl)
        · exact h.1 hm
        · exact hk rfl

theorem keys_nodup_foldl_bump (names : List String) (occ : List (String × Nat))
    (h : (occ.map Prod.fst).Nodup) :
    ((List.foldl bump occ names).map Prod.fst).Nodup := by
  induction names generalizing occ with
  | nil => simpa
  | cons n ns ih => exact ih _ (keys_nodup_bump occ n h)

theorem mem_keys_foldl_of_mem_keys (names : List String) (occ : List (String × Nat))
    (a : String) (h : a ∈ occ.map Prod.fst) :
    a ∈ (List.foldl bump occ names).map Prod.fst := by
  induction names generalizing occ with
  | nil => simpa using h
  | cons n ns ih =>
      rw [List.foldl_cons]
      exact ih _ ((mem_keys_bump_iff occ n a).2 (Or.inl h))

theorem mem_keys_foldl_bump (names : List String) (occ : List (String × Nat))
    (a : String) (h : a ∈ names) :
    a ∈ (List.foldl bump occ names).map Prod.fst := by
  induction names generalizing occ with
  | nil => cases h
  | cons n ns ih =>
      rcases List.mem_cons.1 h with rfl | hns
      · rw [List.foldl_cons]
        exact mem_keys_foldl_of_mem_keys ns _ a ((mem_keys_bump_iff occ a a).2 (Or.inr rfl))
      · exact ih _ hns

theorem countOf_entry_mem (occ : List (String × Nat)) (a : String)
    (h : a ∈ occ.map Prod.fst) : (a, countOf occ a) ∈ occ := by
  induction occ with
  | nil => simp at h
  | cons kc rest ih =>
      obtain ⟨k', c⟩ := kc
      by_cases hk : k' = a
      · subst hk
        simp [countOf]
      · simp only [List.map_cons, List.mem_cons] at h
        rcases h with rfl | h
        · exact absurd rfl hk
        · simp only [countOf, if_neg hk, List.mem_cons]
          exact Or.inr (ih h)

theorem countOf_eq_of_mem_nodup (occ : List (String × Nat)) (a : String) (c : Nat)
    (hnd : (occ.map Prod.fst).Nodup) (h : (a, c) ∈ occ) : countOf occ a = c := by
  induction occ with
  | nil => cases h
  | cons kc rest ih =>
      obtain ⟨k', c'⟩ := kc
      simp only [List.map_cons, List.nodup_cons] at hnd
      rcases List.mem_cons.1 h with heq | hrest
      · obtain ⟨rfl, rfl⟩ := Prod.mk.injEq .. ▸ heq
        simp [countOf]
      · have hk : k' ≠ a := by
          rintro rfl
          exact hnd.1 (List.mem_map.2 ⟨(k', c), hrest, rfl⟩)
        simp [countOf, hk, ih hnd.2 hrest]

theorem firstDup_eq_none_iff (occ : List (String × Nat)) :
    firstDup occ = none ↔ ∀ kc ∈ occ, kc.2 ≤ 1 := by
  rw [firstDup, Option.map_eq_none', List.find?_eq_none]
  constructor
  · intro h kc hm
    have := h kc hm
    simpa using this
  · intro h kc hm
    simpa using h kc hm

theorem firstDup_foldl_bump_iff (names : List String) :
    firstDup (List.foldl bump [] names) = none ↔ names.Nodup := by
  rw [firstDup_eq_none_iff]
  constructor
  · intro h
    rw [List.nodup_iff_count_le_one]
    intro a
    by_cases hm : a ∈ names
    · have hkey := mem_keys_foldl_bump names [] a hm
      have hbound := h _ (countOf_entry_mem _ a hkey)
      have hcnt := countOf_foldl_bump names [] a
      simp only [countOf] at hcnt
      omega
    · simp [List.count_eq_zero.2 hm]
  · intro h kc hm
    have hnd := keys_nodup_foldl_bump names [] (by simp)
    have hc : countOf (List.foldl bump [] names) kc.1 = kc.2 :=
      countOf_eq_of_mem_nodup _ _ _ hnd hm
    have hcnt := countOf_foldl_bump names [] kc.1
    simp only [countOf] at hcnt
    have := (List.nodup_iff_count_le_one.1 h) kc.1
    omega

theorem scanFields_fst_of_none (fields : List (String × Json)) (occ : List (String × Nat))
    (h : (scanFields fields occ).2 = none) :
    (scanFields fields occ).1 = List.foldl bump occ (fields.map Prod.fst) := by
  induction fields generalizing occ with
  | nil => simp [scanFields]
  | cons kv rest ih =>
      obtain ⟨k, v⟩ := kv
      cases hd : doCheckDupJSONKeys (GKey.strKey k) v with
      | some e =>
          rw [scanFields] at h
          simp [hd] at h
      | none =>
          rw [scanFields] at h ⊢
          simp only [hd] at h ⊢
          simpa using ih (bump occ k) h

theorem scanElems_fst (i : Nat) (elems : List Json) (occ : List (String × Nat)) :
    (scanElems i elems occ).1 = occ := by
  induction elems generalizing i with
  | nil => simp [scanElems]
  | cons v rest ih =>
      cases hd : doCheckDupJSONKeys (GKey.numKey i) v with
      | some e => simp [scanElems, hd]
      | none => simp [scanElems, hd, ih]

theorem finishScope_none_iff (key : GKey) (p : List (String × Nat) × Option String) :
    finishScope key p = none ↔ p.2 = none ∧ firstDup p.1 = none := by
  obtain ⟨occ, err⟩ := p
  cases err with
  | some e => simp [finishScope]
  | none =>
      cases h : firstDup occ with
      | some k => simp [finishScope, h]
      | none => simp [finishScope, h]

mutual

theorem doCheck_none_iff (key : GKey) (j : Json) :
    doCheckDupJSONKeys key j = none ↔ j.dupFree = true :=
  match j with
  | .null => by simp [doCheckDupJSONKeys, Json.dupFree]
  | .boolean b => by simp [doCheckDupJSONKeys, Json.dupFree]
  | .number n => by simp [doCheckDupJSONKeys, Json.dupFree]
  | .str s => by simp [doCheckDupJSONKeys, Json.dupFree]
  | .obj fields => by
      have hscan := scanFields_none_iff fields []
      rw [doCheckDupJSONKeys, finishScope_none_iff, Json.dupFree, Bool.and_eq_true]
      constructor
      · rintro ⟨h1, h2⟩
        rw [scanFields_fst_of_none fields [] h1] at h2
        exact ⟨by simpa using (firstDup_foldl_bump_iff _).1 h2, hscan.1 h1⟩
      · rintro ⟨hnd, hdf⟩
        have h1 := hscan.2 hdf
        refine ⟨h1, ?_⟩
        rw [scanFields_fst_of_none fields [] h1]
        exact (firstDup_foldl_bump_iff _).2 (by simpa using hnd)
  | .arr elems => by
      have hscan := scanElems_none_iff 0 elems []
      rw [doCheckDupJSONKeys, finishScope_none_iff, Json.dupFree, scanElems_fst]
      simpa [firstDup] using hscan

theorem scanFields_none_iff (fields : List (String × Json)) (occ : List (String × Nat)) :
    (scanFields fields occ).2 = none ↔ dupFreeFields fields = true :=
  match fields with
  | [] => by simp [scanFields, dupFreeFields]
  | (k, v) :: rest => by
      have hv := doCheck_none_iff (GKey.strKey k) v
      have hrest := scanFields_none_iff rest (bump occ k)
      rw [dupFreeFields, Bool.and_eq_true]
      cases hd : doCheckDupJSONKeys (GKey.strKey k) v with
      | some e =>
          have hvf : ¬ v.dupFree = true := fun hc => by
            rw [hv.2 hc] at hd
            cases hd
          rw [scanFields]
          simp [hd, hvf]
      | none =>
          have hvt : v.dupFree = true := hv.1 hd
          rw [scanFields]
          simp only [hd]
          simpa [hvt] using hrest

theorem scanElems_none_iff (i : Nat) (elems : List Json) (occ : List (String × Nat)) :
    (scanElems i elems occ).2 = none ↔ dupFreeElems elems = true :=
  match elems with
  | [] => by simp [scanElems, dupFreeElems]
  | v :: rest => by
      have hv := doCheck_none_iff (GKey.numKey i) v
      have hrest := scanElems_none_iff (i + 1) rest occ
      rw [dupFreeElems, Bool.and_eq_true]
      cases hd : doCheckDupJSONKeys (GKey.numKey i) v with
      | some e =>
          have hvf : ¬ v.dupFree = true := fun hc => by
            rw [hv.2 hc] at hd
            cases hd
          rw [scanElems]
          simp [hd, hvf]
      | none =>
          have hvt : v.dupFree = true := hv.1 hd
          rw [scanElems]
          simp only [hd]
          simpa [hvt] using hrest

end

theorem checkDup_none_iff (j : Json) : checkDupJSONKeys j = none ↔ j.dupFree = true :=
  doCheck_none_iff _ j

mutual

theorem hasDupObj_false_of_dupFree (j : Json) (h : j.dupFree = true) :
    j.hasDupObj = false :=
  match j with
  | .null => rfl
  | .boolean b => rfl
  | .number n => rfl
  | .str s => rfl
  | .obj fields => by
      rw [Json.dupFree, Bool.and_eq_true] at h
      rw [Json.hasDupObj, Bool.or_eq_false_iff]
      exact ⟨by simp [h.1], hasDupObjFields_false_of_dupFree fields h.2⟩
  | .arr elems => by
      rw [Json.dupFree] at h
      rw [Json.hasDupObj]
      exact hasDupObjElems_false_of_dupFree elems h

theorem hasDupObjFields_false_of_dupFree (fields : List (String × Json))
    (h : dupFreeFields fields = true) : hasDupObjFields fields = false :=
  match fields with
  | [] => rfl
  | (k, v) :: rest => by
      rw [dupFreeFields, Bool.and_eq_true] at h
      rw [hasDupObjFields, Bool.or_eq_false_iff]
      exact ⟨hasDupObj_false_of_dupFree v h.1, hasDupObjFields_false_of_dupFree rest h.2⟩

theorem hasDupObjElems_false_of_dupFree (elems : List Json)
    (h : dupFreeElems elems = true) : hasDupObjElems elems = false :=
  match elems with
  | [] => rfl
  | v :: rest => by
      rw [dupFreeElems, Bool.and_eq_true] at h
      rw [hasDupObjElems, Bool.or_eq_false_iff]
      exact ⟨hasDupObj_false_of_dupFree v h.1, hasDupObjElems_false_of_dupFree rest h.2⟩

end

mutual

theorem arrNestedDup_false_of_dupFree (j : Json) (h : j.dupFree = true) :
    j.arrNestedDup = false :=
  match j with
  | .null => rfl
  | .boolean b => rfl
  | .number n => rfl
  | .str s => rfl
  | .obj fields => by
      rw [Json.dupFree, Bool.and_eq_true] at h
      rw [Json.arrNestedDup]
      exact arrNestedDupFields_false_of_dupFree fields h.2
  | .arr elems => by
      rw [Json.dupFree] at h
      rw [Json.arrNestedDup, Bool.or_eq_false_iff]
      exact ⟨hasDupObjElems_false_of_dupFree elems h,
             arrNestedDupElems_false_of_dupFree elems h⟩

theorem arrNestedDupFields_false_of_dupFree (fields : List (String × Json))
    (h : dupFreeFields fields = true) : arrNestedDupFields fields = false :=
  match fields with
  | [] => rfl
  | (k, v) :: rest => by
      rw [dupFreeFields, Bool.and_eq_true] at h
      rw [arrNestedDupFields, Bool.or_eq_false_iff]
      exact ⟨arrNestedDup_false_of_dupFree v h.1,
             arrNestedDupFields_false_of_dupFree rest h.2⟩

theorem arrNestedDupElems_false_of_dupFree (elems : List Json)
    (h : dupFreeElems elems = true) : arrNestedDupElems elems = false :=
  match elems with
  | [] => rfl
  | v :: rest => by
      rw [dupFreeElems, Bool.and_eq_true] at h
      rw [arrNestedDupElems, Bool.or_eq_false_iff]
      exact ⟨arrNestedDup_false_of_dupFree v h.1,
             arrNestedDupElems_false_of_dupFree rest h.2⟩

end

theorem checkDup_isSome_of_arrNestedDup (j : Json) (h : j.arrNestedDup = true) :
    (checkDupJSONKeys j).isSome = true := by
  rw [Option.isSome_iff_ne_none]
  intro hnone
  have hdf := (checkDup_none_iff j).1 hnone
  rw [arrNestedDup_false_of_dupFree j hdf] at h
  cases h


theorem cacheWF_SetCredentialForBucket (s : serverConfig) (cache : CredMap)
    (b : String) (c : Credentials) (hnd : (s.Bucket.map Prod.fst).Nodup)
    (h : CacheWellFormed s cache) :
    CacheWellFormed (s.SetCredentialForBucket cache b c).2.1
      (s.SetCredentialForBucket cache b c).2.2 := by
  unfold serverConfig.SetCredentialForBucket
  dsimp only
  by_cases hb : b = ""
  · rw [if_pos hb]
    exact h
  · rw [if_neg hb]
    by_cases hpv : (mapGet s.Bucket b).IsValid = true
    · rw [if_pos hpv]
      intro kv hm
      rcases mem_mapSet _ _ _ kv hm with rfl | hm'
      · exact ⟨rfl, fun _ => ⟨(b, c), mapSet_self_mem _ _ _, rfl⟩⟩
      · obtain ⟨hcache, hne⟩ := (mem_mapDelete _ _ _).1 hm'
        obtain ⟨hkey, hjust⟩ := h kv hcache
        refine ⟨hkey, fun hv => ?_⟩
        obtain ⟨e, heB, heq⟩ := hjust hv
        by_cases heb : e.1 = b
        · exfalso
          have he2 : e = (b, e.2) := by
            rw [← heb]
          have hget : mapGet s.Bucket b = e.2 :=
            mapGet_eq_of_mem_nodup _ _ _ hnd (he2 ▸ heB)
          apply hne
          rw [hkey, ← heq, ← hget]
        · exact ⟨e, mem_mapSet_of_ne _ _ _ _ heB heb, heq⟩
    · rw [if_neg hpv]
      intro kv hm
      rcases mem_mapSet _ _ _ kv hm with rfl | hm'
      · exact ⟨rfl, fun _ => ⟨(b, c), mapSet_self_mem _ _ _, rfl⟩⟩
      · obtain ⟨hkey, hjust⟩ := h kv hm'
        refine ⟨hkey, fun hv => ?_⟩
        obtain ⟨e, heB, heq⟩ := hjust hv
        by_cases heb : e.1 = b
        · exfalso
          have he2 : e = (b, e.2) := by
            rw [← heb]
          have hget : mapGet s.Bucket b = e.2 :=
            mapGet_eq_of_mem_nodup _ _ _ hnd (he2 ▸ heB)
          exact hpv (by rw [hget, heq]; exact hv)
        · exact ⟨e, mem_mapSet_of_ne _ _ _ _ heB heb, heq⟩

theorem cacheWF_GetCredentialForKey (s : serverConfig) (cache : CredMap) (k : String)
    (h : CacheWellFormed s cache) :
    CacheWellFormed s (s.GetCredentialForKey cache k).2 := by
  unfold serverConfig.GetCredentialForKey
  dsimp only
  by_cases h1 : s.Credential.AccessKey = k
  · rw [if_pos h1]
    exact h
  · rw [if_neg h1]
    by_cases h2 : ((mapGet cache k).IsValid && (mapGet cache k).AccessKey == k) = true
    · rw [if_pos h2]
      exact h
    · rw [if_neg h2]
      cases hf : s.Bucket.find? (fun kv => kv.2.AccessKey == k) with
      | none =>
          exact h
      | some kv =>
          intro e he
          rcases mem_mapSet _ _ _ e he with rfl | he'
          · exact ⟨rfl, fun _ => ⟨kv, List.mem_of_find?_eq_some hf, rfl⟩⟩
          · exact h e he'

theorem loadConfig_of_error (g : Globals) (lr : Except String serverConfig)
    (rr : Except String Json) (ne : Option String)
    (v1 v2 : Nat → Nat → Option String) (e : String)
    (h : getValidConfig lr rr ne g.globalIsEnvCreds = Except.error e) :
    loadConfig g lr rr ne v1 v2 = (some e, g) := by
  unfold loadConfig
  rw [h]

theorem mirrorGlobals_cache (g1 : Globals) (s5 : serverConfig) :
    (mirrorGlobals g1 s5).globalServerCredCache = g1.globalServerCredCache := by
  unfold mirrorGlobals
  dsimp only
  split <;> split <;> split <;> split <;> rfl

theorem mirrorGlobals_config (g1 : Globals) (s5 : serverConfig) :
    (mirrorGlobals g1 s5).globalServerConfig = g1.globalServerConfig := by
  unfold mirrorGlobals
  dsimp only
  split <;> split <;> split <;> split <;> rfl

theorem loadConfig_cache_empty (g : Globals) (lr : Except String serverConfig)
    (rr : Except String Json) (ne : Option String)
    (v1 v2 : Nat → Nat → Option String) (cfg : serverConfig)
    (h : getValidConfig lr rr ne g.globalIsEnvCreds = Except.ok cfg) :
    (loadConfig g lr rr ne v1 v2).2.globalServerCredCache = [] := by
  unfold loadConfig
  rw [h]
  dsimp only
  split
  · split <;> simp [mirrorGlobals_cache]
  · simp [mirrorGlobals_cache]

theorem newConfig_cache_empty (g : Globals) (fc : Credentials) (se : Option String) :
    (newConfig g fc se).2.globalServerCredCache = [] := rfl

/-- Claim C1: for every store and access key `k`, `GetCredentialForKey`
resolves with short-circuit at the first match: root credential first (no
cache interaction), then a cache entry that is held (valid, per the Go
zero-value reading of "found") and whose access key matches, then the
first match of a linear scan of `bucketCredentials`, which is inserted
into the cache keyed by its own access key; an exhausted scan yields the
zero credential.  The function returns a credential in every case — it has
no error outcome. -/
theorem C1_resolver_short_circuit (s : serverConfig) (cache : CredMap) (k : String) :
    (s.Credential.AccessKey = k →
        s.GetCredentialForKey cache k = (s.Credential, cache)) ∧
    (s.Credential.AccessKey ≠ k →
        (mapGet cache k).IsValid = true → (mapGet cache k).AccessKey = k →
        s.GetCredentialForKey cache k = (mapGet cache k, cache)) ∧
    (s.Credential.AccessKey ≠ k →
        ¬((mapGet cache k).IsValid = true ∧ (mapGet cache k).AccessKey = k) →
        ∀ kv, s.Bucket.find? (fun e => e.2.AccessKey == k) = some kv →
          kv ∈ s.Bucket ∧ kv.2.AccessKey = k ∧
          s.GetCredentialForKey cache k = (kv.2, mapSet cache kv.2.AccessKey kv.2)) ∧
    (s.Credential.AccessKey ≠ k →
        ¬((mapGet cache k).IsValid = true ∧ (mapGet cache k).AccessKey = k) →
        s.Bucket.find? (fun e => e.2.AccessKey == k) = none →
        (∀ e ∈ s.Bucket, e.2.AccessKey ≠ k) ∧
        s.GetCredentialForKey cache k = (Credentials.zero, cache)) := by
  refine ⟨?_, ?_, ?_, ?_⟩
  · intro h
    unfold serverConfig.GetCredentialForKey
    rw [if_pos h]
  · intro h1 h2 h3
    have hc : ((mapGet cache k).IsValid && ((mapGet cache k).AccessKey == k)) = true := by
      rw [Bool.and_eq_true, beq_iff_eq]
      exact ⟨h2, h3⟩
    unfold serverConfig.GetCredentialForKey
    rw [if_neg h1]
    dsimp only
    rw [if_pos hc]
  · intro h1 h2 kv hf
    have hc : ¬ ((mapGet cache k).IsValid && ((mapGet cache k).AccessKey == k)) = true := by
      rw [Bool.and_eq_true, beq_iff_eq]
      exact h2
    refine ⟨List.mem_of_find?_eq_some hf, by simpa using List.find?_some hf, ?_⟩
    unfold serverConfig.GetCredentialForKey
    rw [if_neg h1]
    dsimp only
    rw [if_neg hc, hf]
  · intro h1 h2 hf
    have hc : ¬ ((mapGet cache k).IsValid && ((mapGet cache k).AccessKey == k)) = true := by
      rw [Bool.and_eq_true, beq_iff_eq]
      exact h2
    refine ⟨fun e he => by simpa using List.find?_eq_none.1 hf e he, ?_⟩
    unfold serverConfig.GetCredentialForKey
    rw [if_neg h1]
    dsimp only
    rw [if_neg hc, hf]

/-- Witness for C1 at concrete inputs: a cache hit is returned without a
scan and without modifying the cache. -/
theorem C1_witness :
    (mkTestConfig credRoot [("b1", credK1)]).GetCredentialForKey
        [("k1", credK1)] "k1" = (mapGet [("k1", credK1)] "k1", [("k1", credK1)]) :=
  (C1_resolver_short_circuit (mkTestConfig credRoot [("b1", credK1)])
      [("k1", credK1)] "k1").2.1 (by decide) (by decide) (by decide)

/-- Claim C7 counterexample: on a store whose root credential is invalid
and which has no bucket override, `GetCredentialForBucket` returns an
invalid credential, refuting "it never returns an invalid credential". -/
theorem C7_counterexample :
    ((mkTestConfig Credentials.zero []).GetCredentialForBucket "b").IsValid = false := by
  decide

/-- Claim C7 (amended): `GetCredentialForBucket` returns the bucket
override when it is present and valid, and otherwise the root credential;
the result is valid whenever the root credential is valid (a store with an
invalid root can return that invalid root, see the counterexample). -/
theorem C7_GetCredentialForBucket_amended (s : serverConfig) (b : String) :
    ((mapGet s.Bucket b).IsValid = true →
        s.GetCredentialForBucket b = mapGet s.Bucket b) ∧
    ((mapGet s.Bucket b).IsValid = false →
        s.GetCredentialForBucket b = s.Credential) ∧
    (s.Credential.IsValid = true → (s.GetCredentialForBucket b).IsValid = true) := by
  refine ⟨?_, ?_, ?_⟩
  · intro h
    unfold serverConfig.GetCredentialForBucket
    simp [h]
  · intro h
    unfold serverConfig.GetCredentialForBucket
    simp [h]
  · intro h
    unfold serverConfig.GetCredentialForBucket
    dsimp only
    cases hv : (mapGet s.Bucket b).IsValid
    · simp [h]
    · simp [hv]

/-- Witness for C7 (amended) at concrete inputs: with a valid root, the
result is valid. -/
theorem C7_witness :
    ((mkTestConfig credRoot []).GetCredentialForBucket "b").IsValid = true :=
  (C7_GetCredentialForBucket_amended (mkTestConfig credRoot []) "b").2.2 (by decide)

/-- Claim C9: `GetBucketForKey` returns the empty string for the root
credential's access key regardless of the contents of
`bucketCredentials`; otherwise it returns a bucket whose credential's
access key equals the requested key when at least one exists, and the
empty string when none match. -/
theorem C9_GetBucketForKey_spec (s : serverConfig) (k : String) :
    (k = s.Credential.AccessKey → s.GetBucketForKey k = "") ∧
    (k ≠ s.Credential.AccessKey →
        ((∃ e ∈ s.Bucket, e.2.AccessKey = k) →
            ∃ e ∈ s.Bucket, e.1 = s.GetBucketForKey k ∧ e.2.AccessKey = k) ∧
        ((∀ e ∈ s.Bucket, e.2.AccessKey ≠ k) → s.GetBucketForKey k = "")) := by
  constructor
  · intro h
    unfold serverConfig.GetBucketForKey
    rw [if_pos h]
  · intro h
    constructor
    · rintro ⟨e, he, hk⟩
      unfold serverConfig.GetBucketForKey
      rw [if_neg h]
      cases hf : s.Bucket.find? (fun kv => kv.2.AccessKey == k) with
      | none =>
          exfalso
          have := List.find?_eq_none.1 hf e he
          simp [hk] at this
      | some kv =>
          exact ⟨kv, List.mem_of_find?_eq_some hf, rfl, by simpa using List.find?_some hf⟩
    · intro hnone
      unfold serverConfig.GetBucketForKey
      rw [if_neg h]
      have hf : s.Bucket.find? (fun kv => kv.2.AccessKey == k) = none :=
        List.find?_eq_none.2 (fun e he => by simpa using hnone e he)
      rw [hf]

/-- Witness for C9 at concrete inputs: the root's access key maps to the
empty string even though a bucket credential shares that access key. -/
theorem C9_witness :
    (mkTestConfig credRoot [("b", credRootClone)]).GetBucketForKey "root" = "" :=
  (C9_GetBucketForKey_spec (mkTestConfig credRoot [("b", credRootClone)]) "root").1 (by decide)

/-- Claim C10: each single-field setter changes only its named field:
`SetRegion` only the region, `SetBrowser` only the browser flag,
`SetCredential` only the root credential (returning the previous one), and
`SetStorageClass` only the two storage-class specs; version, domain,
bucket-credential map, notification block and all remaining fields are
unchanged.  None of these functions reads or writes the credential cache,
which their signatures do not even mention. -/
theorem C10_setters_frame (s : serverConfig) (r : String) (b : Bool)
    (c : Credentials) (sc rrs : storageClass) :
    ((s.SetRegion r).Region = r ∧ (s.SetRegion r).Version = s.Version ∧
     (s.SetRegion r).Credential = s.Credential ∧ (s.SetRegion r).Browser = s.Browser ∧
     (s.SetRegion r).Domain = s.Domain ∧ (s.SetRegion r).StorageClass = s.StorageClass ∧
     (s.SetRegion r).Notify = s.Notify ∧ (s.SetRegion r).Bucket = s.Bucket) ∧
    ((s.SetBrowser b).Browser = b ∧ (s.SetBrowser b).Version = s.Version ∧
     (s.SetBrowser b).Credential = s.Credential ∧ (s.SetBrowser b).Region = s.Region ∧
     (s.SetBrowser b).Domain = s.Domain ∧ (s.SetBrowser b).StorageClass = s.StorageClass ∧
     (s.SetBrowser b).Notify = s.Notify ∧ (s.SetBrowser b).Bucket = s.Bucket) ∧
    ((s.SetCredential c).1 = s.Credential ∧ (s.SetCredential c).2.Credential = c ∧
     (s.SetCredential c).2.Version = s.Version ∧ (s.SetCredential c).2.Region = s.Region ∧
     (s.SetCredential c).2.Browser = s.Browser ∧ (s.SetCredential c).2.Domain = s.Domain ∧
     (s.SetCredential c).2.StorageClass = s.StorageClass ∧
     (s.SetCredential c).2.Notify = s.Notify ∧ (s.SetCredential c).2.Bucket = s.Bucket) ∧
    ((s.SetStorageClass sc rrs).StorageClass = { Standard := sc, RRS := rrs } ∧
     (s.SetStorageClass sc rrs).Version = s.Version ∧
     (s.SetStorageClass sc rrs).Credential = s.Credential ∧
     (s.SetStorageClass sc rrs).Region = s.Region ∧
     (s.SetStorageClass sc rrs).Browser = s.Browser ∧
     (s.SetStorageClass sc rrs).Domain = s.Domain ∧
     (s.SetStorageClass sc rrs).Notify = s.Notify ∧
     (s.SetStorageClass sc rrs).Bucket = s.Bucket) :=
  ⟨⟨rfl, rfl, rfl, rfl, rfl, rfl, rfl, rfl⟩,
   ⟨rfl, rfl, rfl, rfl, rfl, rfl, rfl, rfl⟩,
   ⟨rfl, rfl, rfl, rfl, rfl, rfl, rfl, rfl, rfl⟩,
   ⟨rfl, rfl, rfl, rfl, rfl, rfl, rfl, rfl⟩⟩

/-- Claim C3: for every store and non-empty bucket name, after
`SetCredentialForBucket(b, newCred)`: a valid previous bucket credential
is reported as the previous value and evicted from the cache by its access
key (the returned cache is the delete-then-insert of the old one, and a
read of the evicted key — when distinct from the new credential's key —
yields the zero credential); with no valid previous credential the
reported previous value is the root credential and the cache is only
inserted into; in both cases the new credential is written into
`bucketCredentials` under `b` and eagerly inserted into the cache keyed by
its own access key. -/
theorem C3_SetCredentialForBucket_behavior (s : serverConfig) (cache : CredMap)
    (b : String) (c : Credentials) (hb : b ≠ "") :
    ((mapGet s.Bucket b).IsValid = true →
        (s.SetCredentialForBucket cache b c).1 = mapGet s.Bucket b ∧
        (s.SetCredentialForBucket cache b c).2.2 =
          mapSet (mapDelete cache (mapGet s.Bucket b).AccessKey) c.AccessKey c ∧
        ((mapGet s.Bucket b).AccessKey ≠ c.AccessKey →
            mapGet (s.SetCredentialForBucket cache b c).2.2 (mapGet s.Bucket b).AccessKey =
              Credentials.zero)) ∧
    ((mapGet s.Bucket b).IsValid = false →
        (s.SetCredentialForBucket cache b c).1 = s.Credential ∧
        (s.SetCredentialForBucket cache b c).2.2 = mapSet cache c.AccessKey c) ∧
    mapGet (s.SetCredentialForBucket cache b c).2.1.Bucket b = c ∧
    mapGet (s.SetCredentialForBucket cache b c).2.2 c.AccessKey = c := by
  unfold serverConfig.SetCredentialForBucket
  rw [if_neg hb]
  dsimp only
  by_cases hpv : (mapGet s.Bucket b).IsValid = true
  · rw [if_pos hpv]
    refine ⟨fun _ => ⟨rfl, rfl, fun hne => ?_⟩, ?_, ?_, mapGet_mapSet_self _ _ _⟩
    · rw [mapGet_mapSet_ne _ _ _ _ hne, mapGet_mapDelete_self]
    · intro h
      rw [hpv] at h
      cases h
    · exact mapGet_mapSet_self _ _ _
  · rw [if_neg hpv]
    refine ⟨fun h => absurd h hpv, fun _ => ⟨rfl, rfl⟩, ?_, mapGet_mapSet_self _ _ _⟩
    exact mapGet_mapSet_self _ _ _

/-- Witness for C3 at concrete inputs: overwriting a valid bucket
credential evicts its access key from the cache. -/
theorem C3_witness :
    mapGet ((mkTestConfig credRoot [("b1", credK1)]).SetCredentialForBucket
        [("k1", credK1)] "b1" credY).2.2 "k1" = Credentials.zero :=
  ((C3_SetCredentialForBucket_behavior (mkTestConfig credRoot [("b1", credK1)])
      [("k1", credK1)] "b1" credY (by decide)).1 (by decide)).2.2 (by decide)

/-- Claim C8: after `SetCredentialForBucket(b1, C)` for a bucket name `b1`
(the empty string is not a bucket name — it addresses the root credential)
and a valid credential `C` whose access key differs from the root's:
the cache holds `C` under its access key, `GetCredentialForKey(C.AccessKey)`
returns `C` with the cache unchanged (the cache-hit path: no scan insert),
and `GetCredentialForBucket(b1)` returns `C`. -/
theorem C8_set_then_resolve (s : serverConfig) (cache : CredMap) (b1 : String)
    (c : Credentials) (hb : b1 ≠ "") (hc : c.IsValid = true)
    (hk : c.AccessKey ≠ s.Credential.AccessKey) :
    mapGet (s.SetCredentialForBucket cache b1 c).2.2 c.AccessKey = c ∧
    (s.SetCredentialForBucket cache b1 c).2.1.GetCredentialForKey
        (s.SetCredentialForBucket cache b1 c).2.2 c.AccessKey =
      (c, (s.SetCredentialForBucket cache b1 c).2.2) ∧
    (s.SetCredentialForBucket cache b1 c).2.1.GetCredentialForBucket b1 = c := by
  have hcache : mapGet (s.SetCredentialForBucket cache b1 c).2.2 c.AccessKey = c := by
    unfold serverConfig.SetCredentialForBucket
    rw [if_neg hb]
    dsimp only
    by_cases hpv : (mapGet s.Bucket b1).IsValid = true
    · rw [if_pos hpv]
      exact mapGet_mapSet_self _ _ _
    · rw [if_neg hpv]
      exact mapGet_mapSet_self _ _ _
  have hcred : (s.SetCredentialForBucket cache b1 c).2.1.Credential = s.Credential := by
    unfold serverConfig.SetCredentialForBucket
    rw [if_neg hb]
    dsimp only
    by_cases hpv : (mapGet s.Bucket b1).IsValid = true
    · rw [if_pos hpv]
    · rw [if_neg hpv]
  have hbucket : mapGet (s.SetCredentialForBucket cache b1 c).2.1.Bucket b1 = c := by
    unfold serverConfig.SetCredentialForBucket
    rw [if_neg hb]
    dsimp only
    by_cases hpv : (mapGet s.Bucket b1).IsValid = true
    · rw [if_pos hpv]
      exact mapGet_mapSet_self _ _ _
    · rw [if_neg hpv]
      exact mapGet_mapSet_self _ _ _
  refine ⟨hcache, ?_, ?_⟩
  · unfold serverConfig.GetCredentialForKey
    rw [hcred, if_neg (Ne.symm hk)]
    dsimp only
    rw [hcache]
    have hcond : (c.IsValid && (c.AccessKey == c.AccessKey)) = true := by
      rw [Bool.and_eq_true, beq_iff_eq]
      exact ⟨hc, rfl⟩
    rw [if_pos hcond]
  · unfold serverConfig.GetCredentialForBucket
    rw [hbucket]
    dsimp only
    rw [hc]
    simp

/-- Witness for C8 at concrete inputs. -/
theorem C8_witness :
    ((mkTestConfig credRoot []).SetCredentialForBucket [] "b1" credK1).2.1.GetCredentialForKey
        ((mkTestConfig credRoot []).SetCredentialForBucket [] "b1" credK1).2.2 "k1" =
      (credK1, ((mkTestConfig credRoot []).SetCredentialForBucket [] "b1" credK1).2.2) :=
  (C8_set_then_resolve (mkTestConfig credRoot []) [] "b1" credK1
      (by decide) (by decide) (by decide)).2.1

/-- Claim C4: any validation failure in `getValidConfig` — persistence or
parse error, version-token mismatch against the hard-coded expected
version, duplicate JSON key, invalid root credential while
environment-sourced credentials are not in effect, or
notification-validation error — is returned by `loadConfig` unmodified,
and the globals (published store pointer, credential cache, mirrored
variables) are returned exactly as they were.  The last five conjuncts
show that each of the listed failure causes makes `getValidConfig` return
an error. -/
theorem C4_loadConfig_error_frame (g : Globals) (lr : Except String serverConfig)
    (rr : Except String Json) (ne : Option String)
    (v1 v2 : Nat → Nat → Option String) :
    (∀ e, getValidConfig lr rr ne g.globalIsEnvCreds = Except.error e →
        loadConfig g lr rr ne v1 v2 = (some e, g)) ∧
    (∀ e, lr = Except.error e →
        getValidConfig lr rr ne g.globalIsEnvCreds = Except.error e) ∧
    (∀ cfg, lr = Except.ok cfg → cfg.Version ≠ serverConfigVersion →
        getValidConfig lr rr ne g.globalIsEnvCreds =
          Except.error ("configuration version mismatch. Expected: " ++
            serverConfigVersion ++ ", Got: " ++ cfg.Version)) ∧
    (∀ cfg e, lr = Except.ok cfg → cfg.Version = serverConfigVersion →
        rr = Except.error e →
        getValidConfig lr rr ne g.globalIsEnvCreds = Except.error e) ∧
    (∀ cfg doc e, lr = Except.ok cfg → cfg.Version = serverConfigVersion →
        rr = Except.ok doc → checkDupJSONKeys doc = some e →
        getValidConfig lr rr ne g.globalIsEnvCreds = Except.error e) ∧
    (∀ cfg doc, lr = Except.ok cfg → cfg.Version = serverConfigVersion →
        rr = Except.ok doc → checkDupJSONKeys doc = none →
        g.globalIsEnvCreds = false → cfg.Credential.IsValid = false →
        getValidConfig lr rr ne g.globalIsEnvCreds =
          Except.error ("invalid credential in config file " ++ minioConfigFile)) ∧
    (∀ cfg doc e, lr = Except.ok cfg → cfg.Version = serverConfigVersion →
        rr = Except.ok doc → checkDupJSONKeys doc = none →
        (g.globalIsEnvCreds = true ∨ cfg.Credential.IsValid = true) →
        ne = some e →
        getValidConfig lr rr ne g.globalIsEnvCreds = Except.error e) := by
  refine ⟨?_, ?_, ?_, ?_, ?_, ?_, ?_⟩
  · intro e h
    unfold loadConfig
    rw [h]
  · intro e h
    rw [h]
    rfl
  · intro cfg h hv
    rw [h]
    unfold getValidConfig
    dsimp only
    rw [if_pos hv]
  · intro cfg e h hv hr
    rw [h, hr]
    unfold getValidConfig
    dsimp only
    rw [if_neg (by simp [hv])]
  · intro cfg doc e h hv hr hd
    rw [h, hr]
    unfold getValidConfig
    dsimp only
    rw [if_neg (by simp [hv])]
    try dsimp only
    rw [hd]
  · intro cfg doc h hv hr hd henv hcred
    rw [h, hr]
    unfold getValidConfig
    dsimp only
    rw [if_neg (by simp [hv])]
    try dsimp only
    rw [hd]
    try dsimp only
    rw [if_pos (by rw [henv, hcred]; rfl)]
  · intro cfg doc e h hv hr hd hok hne
    rw [h, hr, hne]
    unfold getValidConfig
    dsimp only
    rw [if_neg (by simp [hv])]
    try dsimp only
    rw [hd]
    try dsimp only
    have hcond : ¬ ((!g.globalIsEnvCreds && !cfg.Credential.IsValid) = true) := by
      rcases hok with henv | hcred
      · rw [henv]
        simp
      · rw [hcred]
        simp
    rw [if_neg hcond]

/-- Witness for C4 at concrete inputs: a persistence error is surfaced
unmodified and the globals are untouched. -/
theorem C4_witness :
    loadConfig gTest (Except.error "persistence failure") (Except.ok Json.null)
        none noParityErr noParityErr = (some "persistence failure", gTest) :=
  (C4_loadConfig_error_frame gTest (Except.error "persistence failure")
      (Except.ok Json.null) none noParityErr noParityErr).1 "persistence failure" rfl

/-- Claim C2 counterexample: the claimed invariant — every cache entry is
the current root credential or a currently-present bucket value — holds of
a concrete state but is destroyed by `SetCredentialForBucket`: overwriting
a bucket whose stored credential is invalid (access key `x`, empty secret)
skips the eviction branch, so the stale cache entry for `x` survives while
its credential is no longer present in `bucketCredentials`. -/
theorem C2_counterexample :
    CacheConsistent (mkTestConfig credRoot [("b2", credXInvalid)]) [("x", credXInvalid)] ∧
    ¬ CacheConsistent
        ((mkTestConfig credRoot [("b2", credXInvalid)]).SetCredentialForBucket
            [("x", credXInvalid)] "b2" credY).2.1
        ((mkTestConfig credRoot [("b2", credXInvalid)]).SetCredentialForBucket
            [("x", credXInvalid)] "b2" credY).2.2 := by
  constructor
  · unfold CacheConsistent
    decide
  · unfold CacheConsistent
    decide

/-- Claim C2 (amended): the invariant the cache operations actually
preserve: every entry is keyed by its credential's own access key, and
every entry holding a valid credential is a currently-present value in
`bucketCredentials` (hence, in particular, either the current root
credential or a present bucket value — the last conjunct).  Entries
holding invalid credentials may persist as stale when an invalid bucket
credential is overwritten; the resolver's validity double-check rejects
them.  The invariant is preserved by `SetCredentialForBucket` (for a
bucket map with unique keys, as a Go map has), by the resolver's lazy
insert, and by the empty cache published by `loadConfig` and `newConfig`. -/
theorem C2_cache_invariant_amended :
    (∀ (s : serverConfig) (cache : CredMap) (b : String) (c : Credentials),
        (s.Bucket.map Prod.fst).Nodup → CacheWellFormed s cache →
        CacheWellFormed (s.SetCredentialForBucket cache b c).2.1
          (s.SetCredentialForBucket cache b c).2.2) ∧
    (∀ (s : serverConfig) (cache : CredMap) (k : String),
        CacheWellFormed s cache →
        CacheWellFormed s (s.GetCredentialForKey cache k).2) ∧
    (∀ (g : Globals) (lr : Except String serverConfig) (rr : Except String Json)
        (ne : Option String) (v1 v2 : Nat → Nat → Option String) (cfg : serverConfig),
        getValidConfig lr rr ne g.globalIsEnvCreds = Except.ok cfg →
        ∀ s', CacheWellFormed s' (loadConfig g lr rr ne v1 v2).2.globalServerCredCache) ∧
    (∀ (g : Globals) (fc : Credentials) (se : Option String) (s' : serverConfig),
        CacheWellFormed s' (newConfig g fc se).2.globalServerCredCache) ∧
    (∀ (s : serverConfig) (cache : CredMap), CacheWellFormed s cache →
        ∀ kv ∈ cache, kv.2.IsValid = true →
          kv.2 = s.Credential ∨ ∃ e ∈ s.Bucket, e.2 = kv.2) := by
  refine ⟨cacheWF_SetCredentialForBucket, cacheWF_GetCredentialForKey, ?_, ?_, ?_⟩
  · intro g lr rr ne v1 v2 cfg h s'
    rw [loadConfig_cache_empty g lr rr ne v1 v2 cfg h]
    intro kv hm
    cases hm
  · intro g fc se s'
    rw [newConfig_cache_empty g fc se]
    intro kv hm
    cases hm
  · intro s cache h kv hm hv
    exact Or.inr ((h kv hm).2 hv)

/-- Witness for C2 (amended) at concrete inputs: the invariant holds after
overwriting a valid bucket credential. -/
theorem C2_witness :
    CacheWellFormed
      ((mkTestConfig credRoot [("b1", credK1)]).SetCredentialForBucket
          [("k1", credK1)] "b1" credY).2.1
      ((mkTestConfig credRoot [("b1", credK1)]).SetCredentialForBucket
          [("k1", credK1)] "b1" credY).2.2 :=
  C2_cache_invariant_amended.1 (mkTestConfig credRoot [("b1", credK1)])
    [("k1", credK1)] "b1" credY (by decide) (by unfold CacheWellFormed; decide)

/-- Claim C5: duplicate detection is scope-local.  Every document in which
no single object scope declares two same-named immediate keys passes
`checkDupJSONKeys`; the document mapping `a` to an object declaring `x`
twice fails, with the error identifying key `x` under scope `a`; the
document declaring `x` under the two distinct scopes `a` and `b` passes. -/
theorem C5_checkDupJSONKeys_scope_local :
    (∀ j : Json, j.dupFree = true → checkDupJSONKeys j = none) ∧
    checkDupJSONKeys jsonDupNested =
      some "config.json => a => `x` entry is duplicated" ∧
    checkDupJSONKeys jsonSameKeyTwoScopes = none := by
  refine ⟨fun j h => (checkDup_none_iff j).2 h, by decide, by decide⟩

/-- Witness for C5 at concrete inputs: a duplicate-free document with
objects, arrays and scalars passes. -/
theorem C5_witness : checkDupJSONKeys jsonCleanDoc = none :=
  C5_checkDupJSONKeys_scope_local.1 jsonCleanDoc (by decide)

/-- Claim C6: a document containing, at any depth, an array one of whose
elements is or contains an object with a duplicated immediate key fails
`checkDupJSONKeys`: array scopes contribute no keys of their own but
propagate duplicate-key errors found in their child values. -/
theorem C6_array_propagates_dup (j : Json) (h : j.arrNestedDup = true) :
    (checkDupJSONKeys j).isSome = true :=
  checkDup_isSome_of_arrNestedDup j h

/-- Witness for C6 at concrete inputs: a duplicated key inside an
array-nested object is detected. -/
theorem C6_witness : (checkDupJSONKeys jsonArrayDup).isSome = true :=
  C6_array_propagates_dup jsonArrayDup (by decide)
